import Mathlib

/-!
Verification of `rand_derive` (`src/lib.rs`), a `macro_rules!` code generator
that derives an implementation of the `rand::Rand` trait for structs and enums.

The macro is a pure compile-time function from a normalized type description
(produced by `parse_item!` / `parse_generics_shim`) to the source text of an
`impl ::rand::Rand for ...` block.  We embed:

* the input data model (`ItemDesc`, `FieldGroup`, `Variant`, `Generics`)
  exactly as the macro's patterns destructure it;
* the generated code as a small AST (`GeneratedImpl`, `RandBody`, `GenExpr`,
  `IndexExpr`, `FieldInit`, `WherePred`), one constructor per syntactic form
  the macro can emit;
* the generator itself (`Rand_item`, `rand_enum`, `rand_struct`,
  `inject_where`, `isone`, `variantExpr`, `structExpr`), each rule translated
  from the corresponding `macro_rules!` arm;
* an operational semantics for the generated `fn rand` body (`evalExpr`,
  `evalEnumBody`) over an abstract random-generation interface `Rng`
  exposing the two operations the emitted code calls:
  `gen()` (generate one value) and `gen_range(lo, hi)` (draw an index from
  the half-open range `[lo, hi)`).
-/

namespace RandDerive

/-! ## Input data model (what `parse_item!` hands to `Rand! { @item ... }`) -/

/-- One field group, the `kind`/`fields` pair of the normalized description:
`unitary` (no fields), `tuple` (ordered unnamed field types), or
`record` (ordered `(name, ty)` pairs).  Types are opaque references. -/
inductive FieldGroup where
  | unitary : FieldGroup
  | tuple (tys : List String) : FieldGroup
  | record (fields : List (String × String)) : FieldGroup
deriving DecidableEq, Repr

/-- One enum variant: its name and its field group.  Its ordinal is its
0-based position in the declaration-order variant list (the `ord` field
supplied by `parse_item!`). -/
structure Variant where
  name : String
  fields : FieldGroup
deriving DecidableEq, Repr

/-- The `generics` block of the normalized description: the `constr` tokens
(parameters with their inline bounds, for the `impl<...>` header), the
`params` tokens (for `$name<$($params)*>`), and the declared type-parameter
names `tnames`. -/
structure Generics where
  constr : List String
  params : List String
  tnames : List String
deriving DecidableEq, Repr

/-- A normalized item description, as destructured by the two `@item` rules:
an enum (name, generics, user where-clause predicate fragments, ordered
variants) or a struct (name, generics, predicate fragments, one field
group). -/
inductive ItemDesc where
  | enumItem (name : String) (g : Generics) (preds : List String)
      (variants : List Variant) : ItemDesc
  | structItem (name : String) (g : Generics) (preds : List String)
      (fields : FieldGroup) : ItemDesc
deriving DecidableEq, Repr

/-! ## Generated-code AST (what the macro emits) -/

/-- One predicate of the emitted where clause: either the injected
`$tname: ::rand::Rand` bound or one of the user's original `preds`
fragments, carried through verbatim. -/
inductive WherePred where
  | randBound (tname : String) : WherePred
  | userPred (tok : String) : WherePred
deriving DecidableEq, Repr

/-- The expression bound to `variant` in the generated enum body: either the
literal `0` (single-variant elision via `@isone`) or the call
`_rng.gen_range(lo, hi)`, which draws uniformly from `[lo, hi)`. -/
inductive IndexExpr where
  | const (n : Nat) : IndexExpr
  | genRange (lo hi : Nat) : IndexExpr
deriving DecidableEq, Repr

/-- The initializer the macro emits for one field: always a single
`_rng.gen()` call.  The macro writes no type annotation (`@sub` discards the
field tokens and keeps `$rng.gen()` verbatim); host-language inference
resolves the call at the field's declared type, which we record. -/
inductive FieldInit where
  | genCall (ty : String) : FieldInit
deriving DecidableEq, Repr

/-- A generated construction expression: a bare (unit) constructor path,
a tuple-constructor call `path(args...)`, or a record expression
`path { name: init, ... }`.  The path is `[Name]` on the struct path and
`[Name, VariantName]` on the enum path. -/
inductive GenExpr where
  | bare (path : List String) : GenExpr
  | callCtor (path : List String) (args : List FieldInit) : GenExpr
  | recordCtor (path : List String) (fields : List (String × FieldInit)) : GenExpr
deriving DecidableEq, Repr

/-- The body of the generated `fn rand`: the struct rule emits a single
construction expression; the enum rule emits
`let variant = <scrutinee>; match variant { ord => arm, ..., _ => loop { } }`.
The trailing `_ => loop { }` fallback arm is part of every generated enum
match and is represented implicitly by `evalEnumBody`. -/
inductive RandBody where
  | structBody (e : GenExpr) : RandBody
  | enumBody (scrutinee : IndexExpr) (arms : List (Nat × GenExpr)) : RandBody
deriving DecidableEq, Repr

/-- The emitted item: `impl<implGenerics> ::rand::Rand for selfName<selfParams>
[where whereClause] { fn rand ... body ... }`.  `whereClause = none` means no
`where` keyword is emitted at all (the `@inject_where []` rule). -/
structure GeneratedImpl where
  implGenerics : List String
  selfName : String
  selfParams : List String
  whereClause : Option (List WherePred)
  body : RandBody
deriving DecidableEq, Repr

/-! ## The generator, rule by rule -/

/-- The `@isone` helper: with exactly one token in the list the first
alternative is kept, otherwise the second.
`(@isone [$_one:tt] $e:expr, $_f:expr) => { $e };`
`(@isone [$($_notone:tt)*] $_e:expr, $f:expr) => { $f };` -/
def isone {α β : Type} (toks : List α) (e f : β) : β :=
  match toks with
  | [_] => e
  | _ => f

/-- The `@enum $vkind`/`@struct $kind` construction templates, shared shape:
given the constructor path and a field group, emit the construction
expression.  `unitary` emits the bare path; `tuple` emits one `_rng.gen()`
argument per positional slot in declared order; `record` emits
`$fname: $rng.gen()` for each declared field in declared order. -/
def groupExpr (path : List String) (fg : FieldGroup) : GenExpr :=
  match fg with
  | .unitary => .bare path
  | .tuple tys => .callCtor path (tys.map FieldInit.genCall)
  | .record flds => .recordCtor path (flds.map fun f => (f.1, FieldInit.genCall f.2))

/-- `Rand!(@enum $vkind _rng $name $vname $vfields)`: the arm expression for
one variant, its constructor path qualified by the enum name. -/
def variantExpr (name : String) (v : Variant) : GenExpr :=
  groupExpr [name, v.name] v.fields

/-- `Rand!{@struct $kind _rng $name $fields}`: the struct construction
expression, the path being the bare type name. -/
def structExpr (name : String) (fg : FieldGroup) : GenExpr :=
  groupExpr [name] fg

/-- The scrutinee of the generated enum match:
`Rand!(@isone [$($vname)*] 0, _rng.gen_range(0, $num_variants))` —
the literal `0` when there is exactly one variant, otherwise a uniform draw
from `[0, num_variants)`.  (`parse_item!` guarantees `num_variants` is the
variant count.) -/
def enumScrutinee (variants : List Variant) : IndexExpr :=
  isone (variants.map Variant.name) (.const 0) (.genRange 0 variants.length)

/-- The arm list, ordinals assigned from `k` upward: `armsFrom name k vs`
pairs each variant with its ordinal `k + position`. -/
def armsFrom (name : String) (k : Nat) : List Variant → List (Nat × GenExpr)
  | [] => []
  | v :: vs => (k, variantExpr name v) :: armsFrom name (k + 1) vs

/-- The per-ordinal match arms `$( $ord => Rand!(@enum ...), )+`: one arm per
variant, the pattern being the variant's 0-based declaration ordinal `ord`
(assigned by `parse_item!` in declaration order). -/
def enumArms (name : String) (variants : List Variant) : List (Nat × GenExpr) :=
  armsFrom name 0 variants

/-- The combined where clause handed to `@inject_where`:
`[$($tnames: ::rand::Rand,)* $($preds)*]` — a `::rand::Rand` bound for every
declared type parameter, followed by the user's original predicate
fragments. -/
def combinedClause (g : Generics) (preds : List String) : List WherePred :=
  g.tnames.map WherePred.randBound ++ preds.map WherePred.userPred

/-- `Rand!{@inject_where [clause] [impl header] body}`: with an empty clause
token list the impl is emitted with no `where` at all; otherwise
`where $($clause)*` is inserted between header and body. -/
def inject_where (clause : List WherePred) (implGenerics : List String)
    (selfName : String) (selfParams : List String) (body : RandBody) :
    GeneratedImpl :=
  match clause with
  | [] => ⟨implGenerics, selfName, selfParams, none, body⟩
  | c => ⟨implGenerics, selfName, selfParams, some c, body⟩

/-- The enum `@item` rule's right-hand side: inject the combined clause into
`impl<$($constr)*> ::rand::Rand for $name<$($params)*>` whose `fn rand`
draws the variant index and matches it against the per-ordinal arms. -/
def rand_enum (name : String) (g : Generics) (preds : List String)
    (variants : List Variant) : GeneratedImpl :=
  inject_where (combinedClause g preds) g.constr name g.params
    (.enumBody (enumScrutinee variants) (enumArms name variants))

/-- The struct `@item` rule's right-hand side: same clause injection, the
body being the single construction expression for the field group. -/
def rand_struct (name : String) (g : Generics) (preds : List String)
    (fields : FieldGroup) : GeneratedImpl :=
  inject_where (combinedClause g preds) g.constr name g.params
    (.structBody (structExpr name fields))

/-- The whole derivation: dispatch on struct-vs-enum.  The enum rule's
`variants` matcher uses `+` repetition ("0 variants is explicitly
unsupported"), so a zero-variant enum matches no rule and the macro
invocation fails to compile: modelled as `none`. -/
def Rand_item : ItemDesc → Option GeneratedImpl
  | .enumItem _ _ _ [] => none
  | .enumItem name g preds variants => some (rand_enum name g preds variants)
  | .structItem name g preds fields => some (rand_struct name g preds fields)

/-! ## Semantics of the generated body -/

/-- A runtime value produced by the generated code: an opaque value handed
back by the random interface's `gen()` (tagged with the type it was
requested at), a bare constructor, a tuple-constructor application, or a
record value. -/
inductive Value where
  | leaf (ty : String) (n : Nat) : Value
  | path (p : List String) : Value
  | ctor (p : List String) (args : List Value) : Value
  | record (p : List String) (fields : List (String × Value)) : Value

/-- The random-generation interface, the two black-box operations the emitted
code calls, over an explicit generator state `σ`: `gen` produces one value of
the requested type, `genRange lo hi` draws one index from the half-open range
`[lo, hi)` — or refuses the draw (`none`), modelling a source that rejects a
given range request. -/
structure Rng (σ : Type) where
  gen : String → σ → Value × σ
  genRange : Nat → Nat → σ → Option (Nat × σ)

/-- Evaluate one emitted field initializer: the single `_rng.gen()` call. -/
def evalFieldInit {σ : Type} (rng : Rng σ) (fi : FieldInit) (s : σ) :
    Value × σ :=
  match fi with
  | .genCall ty => rng.gen ty s

/-- Evaluate the positional argument list left to right, threading the
generator state through the successive `_rng.gen()` calls. -/
def evalInits {σ : Type} (rng : Rng σ) : List FieldInit → σ → List Value × σ
  | [], s => ([], s)
  | fi :: rest, s =>
    let (v, s1) := evalFieldInit rng fi s
    let (vs, s2) := evalInits rng rest s1
    (v :: vs, s2)

/-- Evaluate the named initializer list left to right in declared order. -/
def evalNamedInits {σ : Type} (rng : Rng σ) :
    List (String × FieldInit) → σ → List (String × Value) × σ
  | [], s => ([], s)
  | (n, fi) :: rest, s =>
    let (v, s1) := evalFieldInit rng fi s
    let (vs, s2) := evalNamedInits rng rest s1
    ((n, v) :: vs, s2)

/-- Evaluate a generated construction expression. -/
def evalExpr {σ : Type} (rng : Rng σ) (e : GenExpr) (s : σ) : Value × σ :=
  match e with
  | .bare p => (.path p, s)
  | .callCtor p args =>
    let (vs, s1) := evalInits rng args s
    (.ctor p vs, s1)
  | .recordCtor p flds =>
    let (vs, s1) := evalNamedInits rng flds s
    (.record p vs, s1)

/-- Evaluate the scrutinee of the generated match: a literal evaluates to
itself without touching the generator; `_rng.gen_range(lo, hi)` consults the
random source, which may refuse the draw. -/
def evalIndex {σ : Type} (rng : Rng σ) (ix : IndexExpr) (s : σ) :
    Option (Nat × σ) :=
  match ix with
  | .const n => some (n, s)
  | .genRange lo hi => rng.genRange lo hi s

/-- The possible outcomes of running the generated enum body.
`diverge` is the fallback arm `_ => loop { }` (an infinite loop: control
never leaves it and no value is produced).  `reject` means the random source
refused the range draw.  `signal` is an explicit runtime invariant-violation
report (a panic/abort with a diagnostic); no expression the macro emits
produces it — it exists so that claims about "signalling" are statable. -/
inductive Outcome (σ : Type) where
  | ok (v : Value) (s : σ) : Outcome σ
  | diverge : Outcome σ
  | reject : Outcome σ
  | signal : Outcome σ

/-- Run a generated `fn rand` body: a struct body evaluates its expression;
an enum body evaluates the scrutinee once, then tests the literal-pattern
arms in order (host-language `match` semantics) and falls through to
`_ => loop { }` when no ordinal pattern equals the drawn index. -/
def evalBody {σ : Type} (rng : Rng σ) (b : RandBody) (s : σ) : Outcome σ :=
  match b with
  | .structBody e =>
    let (v, s1) := evalExpr rng e s
    .ok v s1
  | .enumBody scrut arms =>
    match evalIndex rng scrut s with
    | none => .reject
    | some (i, s1) =>
      match arms.find? (fun a => a.1 = i) with
      | some a =>
        let (v, s2) := evalExpr rng a.2 s1
        .ok v s2
      | none => .diverge

/-! ## Concrete instances of the random interface (test harnesses) -/

/-- A counting source over state `Nat`: each `gen` hands back an opaque leaf
tagged with the requested type and the current counter, then advances the
counter; `gen_range lo hi` draws `lo + n % (hi - lo)` (in range) and also
advances.  Each invocation consumes exactly one counter tick, so the final
counter counts the invocations and every draw is distinct. -/
def countRng : Rng Nat where
  gen := fun ty n => (.leaf ty n, n + 1)
  genRange := fun lo hi n => if lo < hi then some (lo + n % (hi - lo), n + 1) else none

/-- A logging source over state `List String`: each `gen` appends the
requested type to the log, so the final log is the exact sequence of
generate-one-value invocations the evaluated code performed. -/
def logRng : Rng (List String) where
  gen := fun ty l => (.leaf ty l.length, l ++ [ty])
  genRange := fun _ _ l => some (0, l)

/-- A refusing source: every range draw is rejected (`none`), value
generation still works.  Used to observe which bodies consult the
range-drawing operation at all. -/
def rejectRng : Rng Nat where
  gen := fun ty n => (.leaf ty n, n + 1)
  genRange := fun _ _ _ => none

/-- An off-contract source: every range draw answers `5` whatever the
requested range, without consuming state.  Used to drive the generated
match into its fallback arm. -/
def stuckRng : Rng Nat where
  gen := fun ty n => (.leaf ty n, n + 1)
  genRange := fun _ _ n => some (5, n)

/-- The values a counting source produces for successive `_rng.gen()` calls
at the given declared types, the first draw carrying counter `s`. -/
def leafSeq : List String → Nat → List Value
  | [], _ => []
  | ty :: tys, s => .leaf ty s :: leafSeq tys (s + 1)

/-- Named-field analogue of `leafSeq`: each declared `(name, ty)` pair
initialized with the next counter draw. -/
def namedLeafSeq : List (String × String) → Nat → List (String × Value)
  | [], _ => []
  | (n, ty) :: flds, s => (n, .leaf ty s) :: namedLeafSeq flds (s + 1)

/-! ## Observation helpers on the generated AST -/

/-- Replace a construction expression's constructor path, keeping its field
initializers: the struct and enum templates differ by exactly this. -/
def withPath (p : List String) : GenExpr → GenExpr
  | .bare _ => .bare p
  | .callCtor _ args => .callCtor p args
  | .recordCtor _ flds => .recordCtor p flds

/-- The field names a record-construction expression lists, in emission
order (empty for the other expression forms). -/
def recordFieldNames : GenExpr → List String
  | .recordCtor _ flds => flds.map Prod.fst
  | _ => []

/-- The declared type-parameter names of an item description. -/
def itemTnames : ItemDesc → List String
  | .enumItem _ g _ _ => g.tnames
  | .structItem _ g _ _ => g.tnames

/-- The user-written where-clause predicate fragments of an item. -/
def itemPreds : ItemDesc → List String
  | .enumItem _ _ preds _ => preds
  | .structItem _ _ preds _ => preds

/-- Whether the item is an enum with an empty variant list (the one shape
the macro's `+` repetition refuses). -/
def isZeroVariantEnum : ItemDesc → Bool
  | .enumItem _ _ _ [] => true
  | _ => false

/-! ## Helper lemmas -/

/-- Both `@inject_where` rules pass the impl body through unchanged. -/
theorem inject_where_body (c : List WherePred) (ig : List String)
    (n : String) (ps : List String) (b : RandBody) :
    (inject_where c ig n ps b).body = b := by
  cases c <;> rfl

/-- The emitted where clause, read back as a list, is exactly the clause
handed to `@inject_where`. -/
theorem inject_where_clause_getD (c : List WherePred) (ig : List String)
    (n : String) (ps : List String) (b : RandBody) :
    (inject_where c ig n ps b).whereClause.getD [] = c := by
  cases c <;> rfl

/-- `@inject_where` omits the `where` keyword exactly on the empty clause. -/
theorem inject_where_clause_none_iff (c : List WherePred) (ig : List String)
    (n : String) (ps : List String) (b : RandBody) :
    (inject_where c ig n ps b).whereClause = none ↔ c = [] := by
  cases c <;> simp [inject_where]

/-- With at least two variants `@isone` keeps the `gen_range` draw. -/
theorem enumScrutinee_of_two_le (variants : List Variant)
    (h : 2 ≤ variants.length) :
    enumScrutinee variants = IndexExpr.genRange 0 variants.length := by
  match variants with
  | [] => simp at h
  | [v] => simp at h
  | v :: w :: rest => rfl

/-- With exactly one variant `@isone` elides the draw to the literal `0`. -/
theorem enumScrutinee_singleton (v : Variant) :
    enumScrutinee [v] = IndexExpr.const 0 := rfl

/-- The ordinals of `armsFrom name k vs` are `k, k+1, ..., k+|vs|-1`. -/
theorem armsFrom_map_fst (name : String) :
    ∀ (vs : List Variant) (k : Nat),
      (armsFrom name k vs).map Prod.fst = List.range' k vs.length
  | [], _ => rfl
  | v :: vs, k => by
    simp [armsFrom, List.range'_succ, armsFrom_map_fst name vs (k + 1)]

/-- Matching an in-range ordinal against the arm list finds exactly the arm
of the variant at that ordinal. -/
theorem armsFrom_find_lt (name : String) :
    ∀ (vs : List Variant) (k i : Nat), k ≤ i → (h : i - k < vs.length) →
      (armsFrom name k vs).find? (fun a => a.1 = i)
        = some (i, variantExpr name vs[i - k]) := by
  intro vs
  induction vs with
  | nil => intro k i hk h; simp at h
  | cons v vs ih =>
    intro k i hk h
    by_cases hki : k = i
    · subst hki
      rw [armsFrom, List.find?_cons_of_pos _ (by simp)]
      simp
    · have hk1 : k + 1 ≤ i := by omega
      have h1 : i - (k + 1) < vs.length := by
        simp only [List.length_cons] at h; omega
      rw [armsFrom, List.find?_cons_of_neg _ (by simp [hki]), ih (k + 1) i hk1 h1]
      have hik : i - k = (i - (k + 1)) + 1 := by omega
      congr 1
      rw [Prod.mk.injEq]
      refine ⟨rfl, ?_⟩
      congr 1
      simp only [hik, List.getElem_cons_succ]

/-- Matching an out-of-range ordinal against the arm list finds nothing. -/
theorem armsFrom_find_ge (name : String) :
    ∀ (vs : List Variant) (k i : Nat), k + vs.length ≤ i →
      (armsFrom name k vs).find? (fun a => a.1 = i) = none := by
  intro vs
  induction vs with
  | nil => intro k i _; rfl
  | cons v vs ih =>
    intro k i hk
    simp only [List.length_cons] at hk
    rw [armsFrom, List.find?_cons_of_neg _ (by simp; omega)]
    exact ih (k + 1) i (by omega)

/-- Unfolding equation for the logging source's `gen`. -/
theorem logRng_gen (ty : String) (l : List String) :
    logRng.gen ty l = (Value.leaf ty l.length, l ++ [ty]) := rfl

/-- Unfolding equation for the counting source's `gen`. -/
theorem countRng_gen (ty : String) (n : Nat) :
    countRng.gen ty n = (Value.leaf ty n, n + 1) := rfl

/-- Under the logging source, evaluating the emitted positional initializers
appends exactly the declared field types, in declared order: one
`_rng.gen()` invocation per field, at that field's type. -/
theorem evalInits_logRng :
    ∀ (tys : List String) (l : List String),
      (evalInits logRng (tys.map FieldInit.genCall) l).2 = l ++ tys
  | [], l => by simp [evalInits]
  | ty :: tys, l => by
    simp only [List.map_cons, evalInits, evalFieldInit, logRng_gen,
      evalInits_logRng tys (l ++ [ty])]
    simp

/-- Named-field analogue of `evalInits_logRng`: the log grows by the
declared field types, in declared field order. -/
theorem evalNamedInits_logRng :
    ∀ (flds : List (String × String)) (l : List String),
      (evalNamedInits logRng
          (flds.map fun f => (f.1, FieldInit.genCall f.2)) l).2
        = l ++ flds.map Prod.snd
  | [], l => by simp [evalNamedInits]
  | (n, ty) :: flds, l => by
    simp only [List.map_cons, evalNamedInits, evalFieldInit, logRng_gen,
      evalNamedInits_logRng flds (l ++ [ty])]
    simp

/-- Under the counting source, the emitted positional initializers produce
the sequence of fresh leaves `leafSeq`: one counter tick per field. -/
theorem evalInits_countRng :
    ∀ (tys : List String) (s : Nat),
      evalInits countRng (tys.map FieldInit.genCall) s
        = (leafSeq tys s, s + tys.length)
  | [], s => by simp [evalInits, leafSeq]
  | ty :: tys, s => by
    simp only [List.map_cons, evalInits, evalFieldInit, countRng_gen,
      evalInits_countRng tys (s + 1), leafSeq]
    rw [Prod.mk.injEq]
    refine ⟨rfl, ?_⟩
    simp only [List.length_cons]
    omega

/-- Named-field analogue of `evalInits_countRng`. -/
theorem evalNamedInits_countRng :
    ∀ (flds : List (String × String)) (s : Nat),
      evalNamedInits countRng
          (flds.map fun f => (f.1, FieldInit.genCall f.2)) s
        = (namedLeafSeq flds s, s + flds.length)
  | [], s => by simp [evalNamedInits, namedLeafSeq]
  | (n, ty) :: flds, s => by
    simp only [List.map_cons, evalNamedInits, evalFieldInit, countRng_gen,
      evalNamedInits_countRng flds (s + 1), namedLeafSeq]
    rw [Prod.mk.injEq]
    refine ⟨rfl, ?_⟩
    simp only [List.length_cons]
    omega

/-- The `i`-th fresh leaf carries the `i`-th declared type and the `i`-th
counter value: it is a function of that field's declared type and draw
ordinal alone. -/
theorem leafSeq_get :
    ∀ (tys : List String) (s i : Nat) (h : i < tys.length),
      (leafSeq tys s).get? i = some (Value.leaf tys[i] (s + i))
  | [], _, i, h => by simp at h
  | ty :: tys, s, 0, h => by simp [leafSeq]
  | ty :: tys, s, i + 1, h => by
    have h1 : i < tys.length := by simpa using h
    have hs : s + 1 + i = s + (i + 1) := by omega
    simp only [leafSeq, List.get?_cons_succ, List.getElem_cons_succ,
      leafSeq_get tys (s + 1) i h1, hs]

/-- Named-field analogue of `leafSeq_get`. -/
theorem namedLeafSeq_get :
    ∀ (flds : List (String × String)) (s j : Nat) (h : j < flds.length),
      (namedLeafSeq flds s).get? j
        = some (flds[j].1, Value.leaf flds[j].2 (s + j))
  | [], _, j, h => by simp at h
  | f :: flds, s, 0, h => by simp [namedLeafSeq]
  | f :: flds, s, j + 1, h => by
    have h1 : j < flds.length := by simpa using h
    have hs : s + 1 + j = s + (j + 1) := by omega
    simp only [namedLeafSeq, List.get?_cons_succ, List.getElem_cons_succ,
      namedLeafSeq_get flds (s + 1) j h1, hs]

/-! ## The claims -/

/-- C1: for an enum with at least two variants the generated body draws one
index by `_rng.gen_range(0, num_variants)` (the half-open range), its match
arms carry exactly the ordinals `0..num_variants-1`, and a drawn index `i`
selects the variant at ordinal `i` in declaration order. -/
theorem C1_enum_uniform_draw_dispatch {σ : Type} (rng : Rng σ)
    (name : String) (g : Generics) (preds : List String)
    (variants : List Variant) (s s' : σ) (i : Nat)
    (hn : 2 ≤ variants.length) (hi : i < variants.length)
    (hdraw : rng.genRange 0 variants.length s = some (i, s')) :
    enumScrutinee variants = IndexExpr.genRange 0 variants.length
    ∧ (enumArms name variants).map Prod.fst = List.range variants.length
    ∧ evalBody rng (rand_enum name g preds variants).body s
        = Outcome.ok (evalExpr rng (variantExpr name variants[i]) s').1
                     (evalExpr rng (variantExpr name variants[i]) s').2 := by
  have hscrut := enumScrutinee_of_two_le variants hn
  refine ⟨hscrut, ?_, ?_⟩
  · rw [enumArms, armsFrom_map_fst, List.range_eq_range']
  · have hfind := armsFrom_find_lt name variants 0 i (Nat.zero_le i)
      (by simpa using hi)
    simp only [Nat.sub_zero] at hfind
    rw [rand_enum, inject_where_body]
    simp only [evalBody, evalIndex, hscrut, hdraw, enumArms, hfind]

/-- Witness for C1 at a concrete two-variant enum and the counting source:
the draw from `[0, 2)` at counter 5 yields index 1 and variant `B` (the
ordinal-1 variant) is selected. -/
theorem C1_witness :
    2 ≤ ([⟨"A", FieldGroup.unitary⟩, ⟨"B", FieldGroup.unitary⟩] : List Variant).length
    ∧ 1 < ([⟨"A", FieldGroup.unitary⟩, ⟨"B", FieldGroup.unitary⟩] : List Variant).length
    ∧ countRng.genRange 0 2 5 = some (1, 6)
    ∧ (enumScrutinee [⟨"A", FieldGroup.unitary⟩, ⟨"B", FieldGroup.unitary⟩]
        = IndexExpr.genRange 0 2
      ∧ (enumArms "E" [⟨"A", FieldGroup.unitary⟩, ⟨"B", FieldGroup.unitary⟩]).map Prod.fst
          = List.range 2
      ∧ evalBody countRng
          (rand_enum "E" ⟨[], [], []⟩ []
            [⟨"A", FieldGroup.unitary⟩, ⟨"B", FieldGroup.unitary⟩]).body 5
          = Outcome.ok
              (evalExpr countRng (variantExpr "E" ⟨"B", FieldGroup.unitary⟩) 6).1
              (evalExpr countRng (variantExpr "E" ⟨"B", FieldGroup.unitary⟩) 6).2) :=
  ⟨by decide, by decide, rfl,
   C1_enum_uniform_draw_dispatch countRng "E" ⟨[], [], []⟩ []
     [⟨"A", FieldGroup.unitary⟩, ⟨"B", FieldGroup.unitary⟩] 5 6 1
     (by decide) (by decide) rfl⟩

/-- C2: the emitted where clause is exactly the `::rand::Rand` bound for
every declared type parameter (unconditionally) followed by the user's
original predicate fragments — identically on the struct and enum paths. -/
theorem C2_clause_union (item : ItemDesc) (impl : GeneratedImpl)
    (h : Rand_item item = some impl) :
    impl.whereClause.getD []
      = (itemTnames item).map WherePred.randBound
        ++ (itemPreds item).map WherePred.userPred := by
  cases item with
  | enumItem name g preds variants =>
    cases variants with
    | nil => simp [Rand_item] at h
    | cons v vs =>
      simp only [Rand_item, Option.some.injEq] at h
      subst h
      simp [rand_enum, inject_where_clause_getD, combinedClause,
        itemTnames, itemPreds]
  | structItem name g preds fields =>
    simp only [Rand_item, Option.some.injEq] at h
    subst h
    simp [rand_struct, inject_where_clause_getD, combinedClause,
      itemTnames, itemPreds]

/-- Witness for C2: a generic struct with one declared parameter (unused
bounds still added) and one user fragment; the emitted clause is the union
of the two. -/
theorem C2_witness :
    Rand_item (ItemDesc.structItem "P" ⟨["T"], ["T"], ["T"]⟩ ["U: Clone"]
        (FieldGroup.record [("x", "T")]))
      = some (rand_struct "P" ⟨["T"], ["T"], ["T"]⟩ ["U: Clone"]
          (FieldGroup.record [("x", "T")]))
    ∧ (rand_struct "P" ⟨["T"], ["T"], ["T"]⟩ ["U: Clone"]
          (FieldGroup.record [("x", "T")])).whereClause.getD []
        = (itemTnames (ItemDesc.structItem "P" ⟨["T"], ["T"], ["T"]⟩ ["U: Clone"]
              (FieldGroup.record [("x", "T")]))).map WherePred.randBound
          ++ (itemPreds (ItemDesc.structItem "P" ⟨["T"], ["T"], ["T"]⟩ ["U: Clone"]
              (FieldGroup.record [("x", "T")]))).map WherePred.userPred :=
  ⟨rfl, C2_clause_union _ _ rfl⟩

/-- C3: derivation fails exactly on zero-variant enums (the `+` repetition
in the variants matcher) and succeeds on every other struct or enum shape
of the data model. -/
theorem C3_totality (item : ItemDesc) :
    (Rand_item item).isSome = !isZeroVariantEnum item := by
  cases item with
  | enumItem name g preds variants => cases variants <;> rfl
  | structItem name g preds fields => rfl

/-- C4: with exactly one variant the index is the literal `0` (no range
draw), the body always yields that variant — even against a source that
refuses size-1 range draws — and a contract-respecting size-1 draw in the
non-elided body selects the same variant. -/
theorem C4_single_variant_elision {σ : Type} (rng : Rng σ) (name : String)
    (g : Generics) (preds : List String) (v : Variant) (s : σ) :
    enumScrutinee [v] = IndexExpr.const 0
    ∧ evalBody rng (rand_enum name g preds [v]).body s
        = Outcome.ok (evalExpr rng (variantExpr name v) s).1
                     (evalExpr rng (variantExpr name v) s).2
    ∧ (rng.genRange 0 1 s = none →
        evalBody rng
            (RandBody.enumBody (IndexExpr.genRange 0 1) (enumArms name [v])) s
          = Outcome.reject)
    ∧ (∀ s' : σ, rng.genRange 0 1 s = some (0, s') →
        evalBody rng
            (RandBody.enumBody (IndexExpr.genRange 0 1) (enumArms name [v])) s
          = Outcome.ok (evalExpr rng (variantExpr name v) s').1
                       (evalExpr rng (variantExpr name v) s').2) := by
  refine ⟨rfl, ?_, ?_, ?_⟩
  · rw [rand_enum, inject_where_body]
    rfl
  · intro h
    simp [evalBody, evalIndex, h]
  · intro s' h
    simp [evalBody, evalIndex, h, enumArms, armsFrom]

/-- Witness for C4 at a single-variant enum against the refusing source:
the elided body still constructs variant `A`, while the non-elided body
would be stuck on the rejected draw. -/
theorem C4_witness :
    rejectRng.genRange 0 1 0 = none
    ∧ evalBody rejectRng
        (rand_enum "E" ⟨[], [], []⟩ [] [⟨"A", FieldGroup.unitary⟩]).body 0
        = Outcome.ok (Value.path ["E", "A"]) 0
    ∧ evalBody rejectRng
        (RandBody.enumBody (IndexExpr.genRange 0 1)
          (enumArms "E" [⟨"A", FieldGroup.unitary⟩])) 0
        = Outcome.reject :=
  ⟨rfl,
   (C4_single_variant_elision rejectRng "E" ⟨[], [], []⟩ []
      ⟨"A", FieldGroup.unitary⟩ 0).2.1,
   (C4_single_variant_elision rejectRng "E" ⟨[], [], []⟩ []
      ⟨"A", FieldGroup.unitary⟩ 0).2.2.1 rfl⟩

/-- C5: the construction expression follows the field-group shape, and the
variant template is the struct template with the path qualified by the
variant name: `unitary` gives the bare path, `tuple` one generated value
per slot in declared order, `record` every declared field name exactly
once, in declared order, each paired with one fresh `_rng.gen()`. -/
theorem C5_shape_templates (name vn : String) (fg : FieldGroup) :
    variantExpr name ⟨vn, fg⟩ = withPath [name, vn] (structExpr name fg)
    ∧ structExpr name FieldGroup.unitary = GenExpr.bare [name]
    ∧ variantExpr name ⟨vn, FieldGroup.unitary⟩ = GenExpr.bare [name, vn]
    ∧ (∀ tys : List String,
        structExpr name (FieldGroup.tuple tys)
          = GenExpr.callCtor [name] (tys.map FieldInit.genCall))
    ∧ (∀ flds : List (String × String),
        structExpr name (FieldGroup.record flds)
          = GenExpr.recordCtor [name]
              (flds.map fun f => (f.1, FieldInit.genCall f.2)))
    ∧ (∀ flds : List (String × String),
        recordFieldNames (structExpr name (FieldGroup.record flds))
          = flds.map Prod.fst) := by
  refine ⟨?_, rfl, rfl, fun _ => rfl, fun _ => rfl, fun flds => ?_⟩
  · cases fg <;> rfl
  · simp [structExpr, groupExpr, recordFieldNames]

/-- A non-empty emitted clause is exactly the clause handed to
`@inject_where`. -/
theorem inject_where_clause_some (c c' : List WherePred) (ig : List String)
    (n : String) (ps : List String) (b : RandBody)
    (h : (inject_where c ig n ps b).whereClause = some c') :
    c' = c ∧ c ≠ [] := by
  cases c with
  | nil => simp [inject_where] at h
  | cons x xs =>
    simp only [inject_where, Option.some.injEq] at h
    exact ⟨h.symm, by simp⟩

/-- The combined clause is empty exactly when there is no declared type
parameter and no user predicate fragment. -/
theorem combinedClause_eq_nil (g : Generics) (preds : List String) :
    combinedClause g preds = [] ↔ g.tnames = [] ∧ preds = [] := by
  simp [combinedClause]

/-- C6: each field is populated by its own single `_rng.gen()` invocation at
its declared type (the logging source records exactly the declared types, in
order), and under the counting source field `i` receives the `i`-th fresh
draw — a value determined by its own declared type and draw ordinal alone,
not by any other field's value. -/
theorem C6_field_independence (nm : String) (tys : List String)
    (flds : List (String × String)) (s i j : Nat)
    (hi : i < tys.length) (hj : j < flds.length) :
    (evalExpr logRng (structExpr nm (FieldGroup.tuple tys)) []).2 = tys
    ∧ (evalExpr logRng (structExpr nm (FieldGroup.record flds)) []).2
        = flds.map Prod.snd
    ∧ evalExpr countRng (structExpr nm (FieldGroup.tuple tys)) s
        = (Value.ctor [nm] (leafSeq tys s), s + tys.length)
    ∧ (leafSeq tys s).get? i = some (Value.leaf tys[i] (s + i))
    ∧ evalExpr countRng (structExpr nm (FieldGroup.record flds)) s
        = (Value.record [nm] (namedLeafSeq flds s), s + flds.length)
    ∧ (namedLeafSeq flds s).get? j
        = some (flds[j].1, Value.leaf flds[j].2 (s + j)) := by
  refine ⟨?_, ?_, ?_, leafSeq_get tys s i hi, ?_, namedLeafSeq_get flds s j hj⟩
  · simp [structExpr, groupExpr, evalExpr, evalInits_logRng]
  · simp [structExpr, groupExpr, evalExpr, evalNamedInits_logRng]
  · simp [structExpr, groupExpr, evalExpr, evalInits_countRng]
  · simp [structExpr, groupExpr, evalExpr, evalNamedInits_countRng]

/-- Witness for C6 at a two-field tuple and a one-field record, counter
starting at 7: the log is the declared types and each field gets its own
distinct draw. -/
theorem C6_witness :
    1 < (["u8", "i32"] : List String).length
    ∧ 0 < ([("x", "u8")] : List (String × String)).length
    ∧ ((evalExpr logRng (structExpr "S" (FieldGroup.tuple ["u8", "i32"])) []).2
        = ["u8", "i32"]
      ∧ (evalExpr logRng (structExpr "S" (FieldGroup.record [("x", "u8")])) []).2
          = ["u8"]
      ∧ evalExpr countRng (structExpr "S" (FieldGroup.tuple ["u8", "i32"])) 7
          = (Value.ctor ["S"] [Value.leaf "u8" 7, Value.leaf "i32" 8], 9)
      ∧ (leafSeq ["u8", "i32"] 7).get? 1 = some (Value.leaf "i32" 8)
      ∧ evalExpr countRng (structExpr "S" (FieldGroup.record [("x", "u8")])) 7
          = (Value.record ["S"] [("x", Value.leaf "u8" 7)], 8)
      ∧ (namedLeafSeq [("x", "u8")] 7).get? 0 = some ("x", Value.leaf "u8" 7)) :=
  ⟨by decide, by decide,
   C6_field_independence "S" ["u8", "i32"] [("x", "u8")] 7 1 0
     (by decide) (by decide)⟩

/-- C7: whenever the drawn index is in `[0, variantCount)`, one of the
per-ordinal arms matches (the arm lookup succeeds), so the generated body
never reaches the `_ => loop { }` fallback. -/
theorem C7_fallback_unreachable {σ : Type} (rng : Rng σ)
    (name : String) (g : Generics) (preds : List String)
    (variants : List Variant) (s s' : σ) (i : Nat)
    (hi : i < variants.length)
    (hdraw : evalIndex rng (enumScrutinee variants) s = some (i, s')) :
    ((enumArms name variants).find? (fun a => a.1 = i)).isSome = true
    ∧ evalBody rng (rand_enum name g preds variants).body s
        ≠ Outcome.diverge := by
  have hfind := armsFrom_find_lt name variants 0 i (Nat.zero_le i)
    (by simpa using hi)
  simp only [Nat.sub_zero] at hfind
  constructor
  · rw [enumArms, hfind]
    rfl
  · rw [rand_enum, inject_where_body]
    simp only [evalBody, hdraw, enumArms, hfind]
    intro hcontra
    exact Outcome.noConfusion hcontra

/-- Witness for C7 at a concrete two-variant enum and the counting source:
the draw yields index 1, the arm lookup succeeds, and the body does not
diverge. -/
theorem C7_witness :
    1 < ([⟨"A", FieldGroup.unitary⟩, ⟨"B", FieldGroup.unitary⟩] : List Variant).length
    ∧ evalIndex countRng
        (enumScrutinee [⟨"A", FieldGroup.unitary⟩, ⟨"B", FieldGroup.unitary⟩]) 5
        = some (1, 6)
    ∧ (((enumArms "E" [⟨"A", FieldGroup.unitary⟩, ⟨"B", FieldGroup.unitary⟩]).find?
          (fun a => a.1 = 1)).isSome = true
      ∧ evalBody countRng
          (rand_enum "E" ⟨[], [], []⟩ []
            [⟨"A", FieldGroup.unitary⟩, ⟨"B", FieldGroup.unitary⟩]).body 5
          ≠ Outcome.diverge) :=
  ⟨by decide, rfl,
   C7_fallback_unreachable countRng "E" ⟨[], [], []⟩ []
     [⟨"A", FieldGroup.unitary⟩, ⟨"B", FieldGroup.unitary⟩] 5 6 1
     (by decide) rfl⟩

/-- C8 counterexample: driving the generated match of a two-variant enum
into its fallback arm (an off-contract source answers index 5) makes the
body diverge — the `_ => loop { }` arm — which is not a signalled invariant
violation. -/
theorem C8_counterexample :
    evalBody stuckRng
        (rand_enum "E" ⟨[], [], []⟩ []
          [⟨"A", FieldGroup.unitary⟩, ⟨"B", FieldGroup.unitary⟩]).body 0
      = Outcome.diverge
    ∧ (Outcome.diverge : Outcome Nat) ≠ Outcome.signal := by
  refine ⟨rfl, ?_⟩
  intro h
  exact Outcome.noConfusion h

/-- C8 (amended): if the drawn index falls outside `0..variantCount-1`, the
generated body reaches the fallback arm and diverges in `loop { }` — it
never silently produces a value, but it does not signal an invariant
violation either. -/
theorem C8_fallback_diverges {σ : Type} (rng : Rng σ) (name : String)
    (g : Generics) (preds : List String) (variants : List Variant)
    (s s' : σ) (i : Nat) (hn : 2 ≤ variants.length)
    (hge : variants.length ≤ i)
    (hdraw : rng.genRange 0 variants.length s = some (i, s')) :
    evalBody rng (rand_enum name g preds variants).body s
      = Outcome.diverge := by
  have hfind := armsFrom_find_ge name variants 0 i (by omega)
  rw [rand_enum, inject_where_body]
  simp only [evalBody, evalIndex, enumScrutinee_of_two_le variants hn, hdraw,
    enumArms, hfind]

/-- Witness for the amended C8: the off-contract index 5 against a
two-variant enum drives the body into the diverging fallback. -/
theorem C8_witness :
    2 ≤ ([⟨"A", FieldGroup.unitary⟩, ⟨"B", FieldGroup.unitary⟩] : List Variant).length
    ∧ ([⟨"A", FieldGroup.unitary⟩, ⟨"B", FieldGroup.unitary⟩] : List Variant).length ≤ 5
    ∧ stuckRng.genRange 0 2 0 = some (5, 0)
    ∧ evalBody stuckRng
        (rand_enum "F" ⟨[], [], []⟩ []
          [⟨"A", FieldGroup.unitary⟩, ⟨"B", FieldGroup.unitary⟩]).body 0
        = Outcome.diverge :=
  ⟨by decide, by decide, rfl,
   C8_fallback_diverges stuckRng "F" ⟨[], [], []⟩ []
     [⟨"A", FieldGroup.unitary⟩, ⟨"B", FieldGroup.unitary⟩] 0 0 5
     (by decide) (by decide) rfl⟩

/-- C9: the implementation is emitted with no where clause at all exactly
when there is no declared type parameter and no user predicate fragment;
any emitted where clause is non-empty and is exactly the combined clause. -/
theorem C9_where_clause_emission (item : ItemDesc) (impl : GeneratedImpl)
    (h : Rand_item item = some impl) :
    (impl.whereClause = none ↔ itemTnames item = [] ∧ itemPreds item = [])
    ∧ (∀ c : List WherePred, impl.whereClause = some c →
        c ≠ []
        ∧ c = (itemTnames item).map WherePred.randBound
            ++ (itemPreds item).map WherePred.userPred) := by
  have main : ∀ (g : Generics) (preds : List String) (b : RandBody),
      ((inject_where (combinedClause g preds) g.constr
          (match item with
           | .enumItem n _ _ _ => n
           | .structItem n _ _ _ => n) g.params b).whereClause = none
        ↔ g.tnames = [] ∧ preds = [])
      ∧ (∀ c : List WherePred,
          (inject_where (combinedClause g preds) g.constr
            (match item with
             | .enumItem n _ _ _ => n
             | .structItem n _ _ _ => n) g.params b).whereClause = some c →
          c ≠ []
          ∧ c = g.tnames.map WherePred.randBound
              ++ preds.map WherePred.userPred) := by
    intro g preds b
    constructor
    · rw [inject_where_clause_none_iff, combinedClause_eq_nil]
    · intro c hc
      obtain ⟨rfl, hne⟩ := inject_where_clause_some _ _ _ _ _ _ hc
      exact ⟨hne, rfl⟩
  cases item with
  | enumItem name g preds variants =>
    cases variants with
    | nil => simp [Rand_item] at h
    | cons v vs =>
      simp only [Rand_item, Option.some.injEq] at h
      subst h
      exact main g preds _
  | structItem name g preds fields =>
    simp only [Rand_item, Option.some.injEq] at h
    subst h
    exact main g preds _

/-- Witness for C9 at a parameterless, predicate-free struct: no where
clause is emitted. -/
theorem C9_witness :
    Rand_item (ItemDesc.structItem "S" ⟨[], [], []⟩ [] FieldGroup.unitary)
      = some (rand_struct "S" ⟨[], [], []⟩ [] FieldGroup.unitary)
    ∧ ((rand_struct "S" ⟨[], [], []⟩ [] FieldGroup.unitary).whereClause = none
        ↔ itemTnames (ItemDesc.structItem "S" ⟨[], [], []⟩ [] FieldGroup.unitary) = []
          ∧ itemPreds (ItemDesc.structItem "S" ⟨[], [], []⟩ [] FieldGroup.unitary) = [])
    ∧ (rand_struct "S" ⟨[], [], []⟩ [] FieldGroup.unitary).whereClause = none :=
  ⟨rfl,
   (C9_where_clause_emission
      (ItemDesc.structItem "S" ⟨[], [], []⟩ [] FieldGroup.unitary)
      (rand_struct "S" ⟨[], [], []⟩ [] FieldGroup.unitary) rfl).1,
   rfl⟩

/-- C10: the unit-struct and unit-variant templates perform zero calls into
the random interface: evaluation returns the bare constructor and leaves the
source state untouched. -/
theorem C10_unit_frame {σ : Type} (rng : Rng σ) (name vn : String)
    (g : Generics) (preds : List String) (s : σ) :
    evalExpr rng (structExpr name FieldGroup.unitary) s = (Value.path [name], s)
    ∧ evalExpr rng (variantExpr name ⟨vn, FieldGroup.unitary⟩) s
        = (Value.path [name, vn], s)
    ∧ evalBody rng (rand_struct name g preds FieldGroup.unitary).body s
        = Outcome.ok (Value.path [name]) s := by
  refine ⟨rfl, rfl, ?_⟩
  rw [rand_struct, inject_where_body]
  rfl

end RandDerive
